import Mathlib

/-!
Verification development for the code-migration evaluation harness.

The Lean definitions below are shallow embeddings of the Python source:

* `TestRec`, `get_passing_test_nodeids`, `get_pass_count`,
  `filter_by_nodeids`, `compute_score` embed
  `src/evaluator/evaluators/unit_test_pass_rate.py`
  (`UnitTestResult` and `UnitTestPassRateEvalResult._compute_score`);
  Python float division on the small integer counts is modelled by
  exact rational division.
-/

/-- One entry of `UnitTestResult.results`: the fields of the per-test
dictionary that the scoring code reads (`nodeid` and `outcome`). -/
structure TestRec where
  nodeid : String
  outcome : String
deriving DecidableEq

/-- `UnitTestResult.get_passing_test_nodeids`: the set of nodeids of the
records whose outcome is the string "passed". -/
def get_passing_test_nodeids (results : List TestRec) : Finset String :=
  ((results.filter (fun r => r.outcome == "passed")).map (fun r => r.nodeid)).toFinset

/-- `UnitTestResult.get_pass_count`: number of records with outcome "passed". -/
def get_pass_count (results : List TestRec) : Nat :=
  (results.filter (fun r => r.outcome == "passed")).length

/-- `UnitTestResult.filter_by_nodeids`: keep the records whose nodeid is in
the given set. -/
def filter_by_nodeids (results : List TestRec) (nodeid_set : Finset String) : List TestRec :=
  results.filter (fun r => decide (r.nodeid ∈ nodeid_set))

/-- `UnitTestPassRateEvalResult._compute_score`: given the baseline set of
passing nodeids and a post-migration run, return `(score, maintained_count)`.
An empty baseline short-circuits to `(0.0, 0)`. -/
def compute_score (baseline_passing_tests : Finset String) (post_mig_result : List TestRec) :
    ℚ × Nat :=
  if baseline_passing_tests = ∅ then (0, 0)
  else
    let maintained_count := get_pass_count (filter_by_nodeids post_mig_result baseline_passing_tests)
    ((maintained_count : ℚ) / (baseline_passing_tests.card : ℚ), maintained_count)

lemma maintained_count_eq_card_inter (baseline : Finset String) (post : List TestRec)
    (hnd : (post.map (fun r => r.nodeid)).Nodup) :
    get_pass_count (filter_by_nodeids post baseline) =
      (baseline ∩ get_passing_test_nodeids post).card := by
  classical
  unfold get_pass_count filter_by_nodeids
  rw [List.filter_filter]
  set p : TestRec → Bool := fun r => (r.outcome == "passed") && decide (r.nodeid ∈ baseline) with hp
  have hsub : ((post.filter p).map (fun r => r.nodeid)).Sublist (post.map (fun r => r.nodeid)) :=
    (List.filter_sublist post).map _
  have hnd2 : ((post.filter p).map (fun r => r.nodeid)).Nodup := hnd.sublist hsub
  have hlen : (post.filter p).length = ((post.filter p).map (fun r => r.nodeid)).toFinset.card := by
    rw [List.toFinset_card_of_nodup hnd2, List.length_map]
  rw [hlen]
  congr 1
  ext a
  simp only [List.mem_toFinset, List.mem_map, List.mem_filter, Finset.mem_inter,
    get_passing_test_nodeids, hp, Bool.and_eq_true, beq_iff_eq, decide_eq_true_eq]
  constructor
  · rintro ⟨r, ⟨hr, hpass, hb⟩, rfl⟩
    exact ⟨hb, r, ⟨hr, hpass⟩, rfl⟩
  · rintro ⟨hb, r, ⟨hr, hpass⟩, rfl⟩
    exact ⟨r, ⟨hr, hpass, hb⟩, rfl⟩

/-- C1: for every baseline run and compared run (the latter with unique test
identifiers, as every run produced by the collector plugin has), the
maintained count is `|BaselineSet ∩ passing(run)|`, the score is that count
divided by `|BaselineSet|` (0 when the baseline is empty, independent of the
compared run), and the score lies in `[0, 1]`. -/
theorem compute_score_regression (pre run : List TestRec)
    (hnd : (run.map (fun r => r.nodeid)).Nodup) :
    (compute_score (get_passing_test_nodeids pre) run).2 =
        ((get_passing_test_nodeids pre) ∩ get_passing_test_nodeids run).card ∧
    (compute_score (get_passing_test_nodeids pre) run).1 =
        (if get_passing_test_nodeids pre = ∅ then 0 else
          (((get_passing_test_nodeids pre) ∩ get_passing_test_nodeids run).card : ℚ) /
            ((get_passing_test_nodeids pre).card : ℚ)) ∧
    0 ≤ (compute_score (get_passing_test_nodeids pre) run).1 ∧
    (compute_score (get_passing_test_nodeids pre) run).1 ≤ 1 := by
  classical
  set B := get_passing_test_nodeids pre with hB
  by_cases hemp : B = ∅
  · simp [compute_score, hemp]
  · have hcard : 0 < B.card := Finset.card_pos.mpr (Finset.nonempty_iff_ne_empty.mpr hemp)
    have hm := maintained_count_eq_card_inter B run hnd
    have hle : (B ∩ get_passing_test_nodeids run).card ≤ B.card :=
      Finset.card_le_card (Finset.inter_subset_left)
    refine ⟨?_, ?_, ?_, ?_⟩
    · simp [compute_score, hemp, hm]
    · simp [compute_score, hemp, hm]
    · simp only [compute_score, hemp, if_false]
      positivity
    · simp only [compute_score, hemp, if_false]
      rw [div_le_one (by exact_mod_cast hcard)]
      rw [hm]
      exact_mod_cast hle

/-- C6 counterexample: scoring a run against itself does NOT yield score 1.0
when the run has no passing test — `_compute_score` short-circuits an empty
baseline to score 0.0.  Concrete input: the empty run. -/
theorem self_regression_empty_counterexample :
    (compute_score (get_passing_test_nodeids ([] : List TestRec)) []).1 ≠ 1 := by
  simp [compute_score, get_passing_test_nodeids]

/-- C6 (amended): for every run with unique test identifiers and at least one
passing test, scoring the run against itself as baseline yields score 1.0 and
maintained count `|BaselineSet|`. -/
theorem self_regression_identity (run : List TestRec)
    (hnd : (run.map (fun r => r.nodeid)).Nodup)
    (hne : get_passing_test_nodeids run ≠ ∅) :
    compute_score (get_passing_test_nodeids run) run =
      (1, (get_passing_test_nodeids run).card) := by
  classical
  have hm := maintained_count_eq_card_inter (get_passing_test_nodeids run) run hnd
  rw [Finset.inter_self] at hm
  have hcard : 0 < (get_passing_test_nodeids run).card :=
    Finset.card_pos.mpr (Finset.nonempty_iff_ne_empty.mpr hne)
  simp only [compute_score, hne, if_false, hm]
  rw [Prod.ext_iff]
  constructor
  · simp only
    rw [div_self]
    exact_mod_cast hcard.ne'
  · rfl

/-- Witness for C6's amended theorem at a concrete one-test run. -/
theorem self_regression_identity_witness :
    compute_score (get_passing_test_nodeids [⟨"t1", "passed"⟩]) [⟨"t1", "passed"⟩] =
      (1, (get_passing_test_nodeids [⟨"t1", "passed"⟩]).card) :=
  self_regression_identity [⟨"t1", "passed"⟩] (by decide) (by decide)

/-- Witness for C1 at a concrete pair of runs. -/
theorem compute_score_regression_witness :
    (compute_score (get_passing_test_nodeids [⟨"t1", "passed"⟩, ⟨"t2", "failed"⟩])
        [⟨"t1", "passed"⟩, ⟨"t3", "passed"⟩]).2 =
      ((get_passing_test_nodeids [⟨"t1", "passed"⟩, ⟨"t2", "failed"⟩]) ∩
        get_passing_test_nodeids [⟨"t1", "passed"⟩, ⟨"t3", "passed"⟩]).card :=
  (compute_score_regression [⟨"t1", "passed"⟩, ⟨"t2", "failed"⟩]
    [⟨"t1", "passed"⟩, ⟨"t3", "passed"⟩] (by decide)).1

/-!
Outcome collection (`src/evaluator/utils/unit_test_utils.py`,
`CollectResultsPlugin.pytest_runtest_logreport`): a test's final status is
built by folding its phase reports (setup / call / teardown) into a single
status via `set_outcome`.  A pytest phase report carries an `outcome` that is
one of "passed" / "failed" / "skipped" (`report.failed` and `report.skipped`
are aliases for the corresponding outcome), plus the `wasxfail` marker.
-/

/-- The `when` field of a pytest phase report. -/
inductive Phase where
  | setup
  | call
  | teardown
deriving DecidableEq

/-- The status strings the plugin stores in `result["outcome"]` ("" = unset). -/
inductive Status where
  | unset
  | passed
  | skipped
  | xfailed
  | xpassed
  | failed
  | error
deriving DecidableEq

/-- The raw `report.outcome` of a single pytest phase report. -/
inductive PhaseOutcome where
  | passed
  | failed
  | skipped
deriving DecidableEq

/-- One pytest phase report, with the fields the plugin reads. -/
structure PhaseReport where
  when : Phase
  outcome : PhaseOutcome
  wasxfail : Bool
deriving DecidableEq

/-- The `precedence` table inside `set_outcome`. -/
def precedence : Status → Nat
  | .error => 5
  | .failed => 4
  | .xpassed => 4
  | .xfailed => 3
  | .skipped => 2
  | .passed => 1
  | .unset => 0

/-- `set_outcome`: overwrite the stored outcome when the new one has
greater-or-equal precedence. -/
def set_outcome (current o : Status) : Status :=
  if precedence current ≤ precedence o then o else current

/-- The status a call-phase report contributes: the raw outcome, adjusted to
xfailed / xpassed when the `wasxfail` marker is present. -/
def call_status (r : PhaseReport) : Status :=
  if r.wasxfail then
    match r.outcome with
    | .skipped => .xfailed
    | .failed => .xpassed
    | .passed => .passed
  else
    match r.outcome with
    | .skipped => .skipped
    | .failed => .failed
    | .passed => .passed

/-- One step of `pytest_runtest_logreport` for a fixed nodeid: a failed setup
or teardown report stores "error"; a non-call report otherwise stores
nothing; a call report stores its (xfail-adjusted) outcome. -/
def log_report_step (current : Status) (r : PhaseReport) : Status :=
  if r.when = .setup ∨ r.when = .teardown then
    if r.outcome = .failed then set_outcome current .error else current
  else
    set_outcome current (call_status r)

/-- The final status for one nodeid after all of its phase reports. -/
def collect_outcome (reports : List PhaseReport) : Status :=
  reports.foldl log_report_step .unset

/-- The status value a single report pushes through `set_outcome`
(`Status.unset` when the report stores nothing). -/
def report_contrib (r : PhaseReport) : Status :=
  if r.when = .setup ∨ r.when = .teardown then
    if r.outcome = .failed then .error else .unset
  else
    call_status r

lemma set_outcome_unset (current : Status) : set_outcome current .unset = current := by
  cases current <;> rfl

lemma log_report_step_eq (current : Status) (r : PhaseReport) :
    log_report_step current r = set_outcome current (report_contrib r) := by
  rcases r with ⟨w, o, x⟩
  cases w <;> cases o <;> cases x <;>
    simp [log_report_step, report_contrib, call_status, set_outcome_unset]

lemma precedence_foldl (reports : List PhaseReport) :
    ∀ current, precedence (reports.foldl log_report_step current) =
      max (precedence current) ((reports.map (fun r => precedence (report_contrib r))).foldr max 0) := by
  induction reports with
  | nil => intro current; simp
  | cons r rs ih =>
    intro current
    rw [List.foldl_cons, ih, log_report_step_eq]
    simp only [List.map_cons, List.foldr_cons]
    unfold set_outcome
    split
    · omega
    · omega

lemma foldl_mem_contribs (reports : List PhaseReport) :
    ∀ current, reports.foldl log_report_step current = current ∨
      reports.foldl log_report_step current ∈ reports.map report_contrib := by
  induction reports with
  | nil => intro current; exact Or.inl rfl
  | cons r rs ih =>
    intro current
    rw [List.foldl_cons, log_report_step_eq]
    rcases ih (set_outcome current (report_contrib r)) with h | h
    · rw [h]
      unfold set_outcome
      split
      · exact Or.inr (List.mem_cons_self _ _)
      · exact Or.inl rfl
    · exact Or.inr (List.mem_cons_of_mem _ h)

lemma precedence_le_five (s : Status) : precedence s ≤ 5 := by
  cases s <;> simp [precedence]

lemma eq_error_of_precedence_five {s : Status} (h : precedence s = 5) : s = .error := by
  cases s <;> simp_all [precedence]

lemma le_foldr_max {l : List Nat} {a : Nat} (h : a ∈ l) : a ≤ l.foldr max 0 := by
  induction l with
  | nil => cases h
  | cons b bs ih =>
    rw [List.foldr_cons]
    rcases List.mem_cons.mp h with rfl | h2
    · exact le_max_left _ _
    · exact le_trans (ih h2) (le_max_right _ _)

lemma foldr_max_le {l : List Nat} {c : Nat} (h : ∀ a ∈ l, a ≤ c) : l.foldr max 0 ≤ c := by
  induction l with
  | nil => exact Nat.zero_le c
  | cons b bs ih =>
    rw [List.foldr_cons]
    exact max_le (h b (List.mem_cons_self _ _)) (ih fun a ha => h a (List.mem_cons_of_mem _ ha))

/-- C2: the final status of a test has the maximum precedence of the status
values its phase reports contribute (under error(5) > failed(4) = xpassed(4)
> xfailed(3) > skipped(2) > passed(1) > unset(0)), it is one of those
contributed values whenever any report contributed, and a failed setup or
teardown report forces the final status to `error` regardless of the call
phase. -/
theorem collect_outcome_max_precedence (reports : List PhaseReport) :
    precedence (collect_outcome reports) =
        ((reports.map (fun r => precedence (report_contrib r))).foldr max 0) ∧
    (collect_outcome reports ≠ .unset →
        collect_outcome reports ∈ reports.map report_contrib) ∧
    (∀ r ∈ reports, (r.when = .setup ∨ r.when = .teardown) → r.outcome = .failed →
        collect_outcome reports = .error) := by
  refine ⟨?_, ?_, ?_⟩
  · rw [collect_outcome, precedence_foldl]
    simp [precedence]
  · intro hne
    rcases foldl_mem_contribs reports .unset with h | h
    · exact absurd h hne
    · exact h
  · intro r hr hwhen hfail
    have hcontrib : report_contrib r = .error := by
      simp [report_contrib, hwhen, hfail]
    have hmem : (5 : Nat) ∈ reports.map (fun s => precedence (report_contrib s)) := by
      refine List.mem_map.mpr ⟨r, hr, ?_⟩
      rw [hcontrib]
      rfl
    have hge : (5 : Nat) ≤ (reports.map (fun s => precedence (report_contrib s))).foldr max 0 :=
      le_foldr_max hmem
    have hub : (reports.map (fun s => precedence (report_contrib s))).foldr max 0 ≤ 5 := by
      refine foldr_max_le ?_
      intro a ha
      rcases List.mem_map.mp ha with ⟨s, _, rfl⟩
      exact precedence_le_five _
    have hpc : precedence (collect_outcome reports) = 5 := by
      rw [collect_outcome, precedence_foldl]
      have h0 : precedence Status.unset = 0 := rfl
      rw [h0]
      omega
    exact eq_error_of_precedence_five hpc

/-- Witness for C2: a concrete test whose setup passed, call passed, and
teardown failed collects to `error`. -/
theorem collect_outcome_witness :
    collect_outcome [⟨.setup, .passed, false⟩, ⟨.call, .passed, false⟩,
        ⟨.teardown, .failed, false⟩] = .error :=
  (collect_outcome_max_precedence _).2.2 ⟨.teardown, .failed, false⟩ (by decide)
    (Or.inr rfl) rfl

/-!
Git machine (`src/evaluator/utils/git_utils.py` and
`src/evaluator/utils/unit_test_utils.py`): a repository is a set of branch
names plus the currently checked-out branch ("" models a detached HEAD).
`run_git_cmd` models the effect and the `(returncode, stdout)` of the git
commands the harness issues.  `GitManager._run_git` and
`LocalUTPRGitManager._run_git` run the command via `subprocess.run` with
output captured and never raise; `DockerUTPRGitManager._run_git` raises a
`RuntimeError` whenever the command's returncode is nonzero.
-/

/-- A git repository: its set of branches and the currently checked-out
branch ("" = detached HEAD / no branch reported by
`git branch --show-current`). -/
structure GitRepo where
  branches : Finset String
  current : String
deriving DecidableEq

/-- Effect and `(returncode, stdout)` of one git command on the repository. -/
def run_git_cmd (s : GitRepo) (command : List String) : GitRepo × Int × String :=
  match command with
  | ["branch", "--show-current"] => (s, 0, s.current)
  | ["checkout", b] =>
      if b ∈ s.branches then ({ s with current := b }, 0, "") else (s, 1, "")
  | ["branch", "-D", b] =>
      if b ∈ s.branches ∧ b ≠ s.current then
        ({ s with branches := s.branches.erase b }, 0, "")
      else (s, 1, "")
  | _ => (s, 1, "")

lemma run_git_cmd_show_current (s : GitRepo) :
    run_git_cmd s ["branch", "--show-current"] = (s, 0, s.current) := rfl

lemma run_git_cmd_checkout (s : GitRepo) (b : String) :
    run_git_cmd s ["checkout", b] =
      if b ∈ s.branches then ({ s with current := b }, 0, "") else (s, 1, "") := rfl

lemma run_git_cmd_delete (s : GitRepo) (b : String) :
    run_git_cmd s ["branch", "-D", b] =
      if b ∈ s.branches ∧ b ≠ s.current then
        ({ s with branches := s.branches.erase b }, 0, "")
      else (s, 1, "") := rfl

/-- `DockerUTPRGitManager._run_git`: run the command, then raise (`.error`)
when its returncode is nonzero, otherwise return the completed process. -/
def docker_run_git (s : GitRepo) (command : List String) :
    GitRepo × Except String (Int × String) :=
  match run_git_cmd s command with
  | (s2, rc, out) =>
      if rc ≠ 0 then (s2, .error "Failed to run git") else (s2, .ok (rc, out))

/-- `UTPRGitManager.delete_branch` (run through the Docker manager, the only
implemented one): `git branch -D name`, propagating `_run_git`'s exception. -/
def delete_branch (s : GitRepo) (branch_name : String) : GitRepo × Except String Unit :=
  match docker_run_git s ["branch", "-D", branch_name] with
  | (s2, r) => (s2, r.map fun _ => ())

/-- `UnitTestPassRateEvaluator._delete_gen_patch_branch`: call `delete_branch`
and swallow any exception. -/
def delete_gen_patch_branch (s : GitRepo) (branch_name : String) : GitRepo :=
  (delete_branch s branch_name).1

/-- `GitManager.branch_context` / `UTPRGitManager.branch_context` (identical
logic): record `git branch --show-current` (whose external returncode is the
parameter `show_rc`; the machine's stdout for it is `s.current`), check out
the target branch, run the guarded block, and in the `finally` clause check
the recorded branch out again when it was determined (`show_rc = 0`),
non-empty, and different from the target.  The block is an arbitrary function
`body` returning the new state and whether it raised; the result also carries
the list of git commands the `finally` clause issued. -/
def branch_context (show_rc : Int) (branch_name : String)
    (body : GitRepo → GitRepo × Bool) (s0 : GitRepo) :
    GitRepo × Bool × List (List String) :=
  let original_branch : Option String := if show_rc = 0 then some s0.current else none
  let s1 := (run_git_cmd s0 ["checkout", branch_name]).1
  let res := body s1
  match original_branch with
  | some ob =>
      if ob ≠ "" ∧ ob ≠ branch_name then
        ((run_git_cmd res.1 ["checkout", ob]).1, res.2, [["checkout", ob]])
      else (res.1, res.2, [])
  | none => (res.1, res.2, [])

lemma branch_context_eq (show_rc : Int) (branch_name : String)
    (body : GitRepo → GitRepo × Bool) (s0 : GitRepo) :
    branch_context show_rc branch_name body s0 =
      if show_rc = 0 ∧ s0.current ≠ "" ∧ s0.current ≠ branch_name then
        ((run_git_cmd (body (run_git_cmd s0 ["checkout", branch_name]).1).1
            ["checkout", s0.current]).1,
          (body (run_git_cmd s0 ["checkout", branch_name]).1).2,
          [["checkout", s0.current]])
      else
        ((body (run_git_cmd s0 ["checkout", branch_name]).1).1,
          (body (run_git_cmd s0 ["checkout", branch_name]).1).2, []) := by
  unfold branch_context
  by_cases hrc : show_rc = 0
  · by_cases h0 : s0.current = ""
    · simp [hrc, h0]
    · by_cases hbn : s0.current = branch_name
      · simp [hrc, h0, hbn]
      · simp [hrc, h0, hbn]
  · simp [hrc]

/-- C3: for every target branch and every guarded block that does not itself
move the repository between branches (as none of the harness's guarded blocks
do), `branch_context` leaves the branch that was checked out on entry checked
out again on exit, both when the block returns normally and when it raises
(the restore runs in a `finally` clause, so it is the same on both paths). -/
theorem branch_context_restores (branch_name : String)
    (body : GitRepo → GitRepo × Bool) (s0 : GitRepo)
    (hcur : s0.current ≠ "")
    (hmem : s0.current ∈ s0.branches)
    (hbody : ∀ s, (body s).1 = s) :
    ((branch_context 0 branch_name body s0).1).current = s0.current ∧
    (branch_context 0 branch_name body s0).2.1 =
      (body ((run_git_cmd s0 ["checkout", branch_name]).1)).2 := by
  classical
  rw [branch_context_eq]
  simp only [hbody]
  by_cases hbn : s0.current = branch_name
  · rw [if_neg (by simp [hbn])]
    refine ⟨?_, rfl⟩
    show ((run_git_cmd s0 ["checkout", branch_name]).1).current = s0.current
    unfold run_git_cmd
    rw [← hbn]
    simp [hmem]
  · rw [if_pos ⟨by trivial, hcur, hbn⟩]
    refine ⟨?_, rfl⟩
    show ((run_git_cmd (run_git_cmd s0 ["checkout", branch_name]).1
        ["checkout", s0.current]).1).current = s0.current
    unfold run_git_cmd
    by_cases hb : branch_name ∈ s0.branches
    · simp [hb, hmem]
    · simp [hb, hmem]

/-- Witness for C3 on a concrete repository, target branch, and raising block. -/
theorem branch_context_restores_witness :
    ((branch_context 0 "dev" (fun s => (s, true)) ⟨{"main", "dev"}, "main"⟩).1).current =
      (⟨{"main", "dev"}, "main"⟩ : GitRepo).current :=
  (branch_context_restores "dev" (fun s => (s, true)) ⟨{"main", "dev"}, "main"⟩
    (by decide) (by decide) (fun s => rfl)).1

/-- C9: the `finally` clause of `branch_context` issues a restoring checkout
exactly when the branch query succeeded (`show_rc = 0`) and reported a
non-empty branch different from the target; when the query failed or the
repository was in detached HEAD ("" branch), nothing is restored on exit and
the final state is exactly the guarded block's state. -/
theorem branch_context_restore_condition (show_rc : Int) (branch_name : String)
    (body : GitRepo → GitRepo × Bool) (s0 : GitRepo) :
    ((branch_context show_rc branch_name body s0).2.2 =
        if show_rc = 0 ∧ s0.current ≠ "" ∧ s0.current ≠ branch_name then
          [["checkout", s0.current]]
        else []) ∧
    (show_rc ≠ 0 ∨ s0.current = "" →
        (branch_context show_rc branch_name body s0).1 =
          (body ((run_git_cmd s0 ["checkout", branch_name]).1)).1) := by
  classical
  rw [branch_context_eq]
  constructor
  · by_cases h : show_rc = 0 ∧ s0.current ≠ "" ∧ s0.current ≠ branch_name
    · rw [if_pos h, if_pos h]
    · rw [if_neg h, if_neg h]
  · intro h
    rw [if_neg (by tauto)]

/-- Witness for C9 with a failed branch query on a concrete repository. -/
theorem branch_context_restore_condition_witness :
    (branch_context 1 "dev" (fun s => (s, false)) ⟨{"main", "dev"}, "main"⟩).1 =
      ((fun s => (s, false)) ((run_git_cmd ⟨{"main", "dev"}, "main"⟩ ["checkout", "dev"]).1)).1 :=
  (branch_context_restore_condition 1 "dev" (fun s => (s, false))
    ⟨{"main", "dev"}, "main"⟩).2 (Or.inl (by decide))

/-- C8 counterexample: `delete_branch` does NOT swallow errors — deleting a
branch that does not exist raises (the Docker manager's `_run_git` raises
`RuntimeError` on git's nonzero returncode, and `delete_branch` does not
catch it).  Concrete input: repository with only "main", deleting "ghost". -/
theorem delete_branch_raises_counterexample :
    (delete_branch ⟨{"main"}, "main"⟩ "ghost").2.isOk = false := by
  decide

/-- C8 (amended): deletion through the evaluator's cleanup wrapper
`_delete_gen_patch_branch` never raises (it is a total function on the
repository state because it catches every exception) and is idempotent:
deleting a branch twice leaves the same state as deleting it once. -/
lemma delete_gen_patch_branch_eq (s : GitRepo) (b : String) :
    delete_gen_patch_branch s b =
      if b ∈ s.branches ∧ b ≠ s.current then { s with branches := s.branches.erase b }
      else s := by
  classical
  unfold delete_gen_patch_branch delete_branch docker_run_git
  rw [run_git_cmd_delete]
  by_cases h : b ∈ s.branches ∧ b ≠ s.current
  · rw [if_pos h, if_pos h]
    simp
  · rw [if_neg h, if_neg h]
    simp

theorem delete_gen_patch_branch_idempotent (s : GitRepo) (branch_name : String) :
    delete_gen_patch_branch (delete_gen_patch_branch s branch_name) branch_name =
      delete_gen_patch_branch s branch_name := by
  classical
  by_cases h : branch_name ∈ s.branches ∧ branch_name ≠ s.current
  · simp only [delete_gen_patch_branch_eq, if_pos h]
    rw [if_neg]
    rintro ⟨hmem, -⟩
    exact Finset.not_mem_erase branch_name s.branches hmem
  · simp only [delete_gen_patch_branch_eq, if_neg h]

/-!
Patch application (`src/evaluator/utils/patch_utils.py`,
`PatchApplier.apply_patch_from_file`).  The two git invocations the code can
make are recorded as command lists; the outcome of each external invocation
is abstracted as a `ProcResult` carrying the process returncode and the
number of "Applied patch" messages in its combined stdout/stderr (git prints
one such message per hunk it applied in `--verbose` mode).
-/

/-- The first `git apply` invocation of `apply_patch_from_file`. -/
def first_apply_cmd (patch_file_path : String) : List String :=
  ["git", "apply", "--ignore-whitespace", "--reject", "--verbose", patch_file_path]

/-- The second (fallback) `git apply` invocation of `apply_patch_from_file`. -/
def three_way_apply_cmd (patch_file_path : String) : List String :=
  ["git", "apply", "--ignore-whitespace", "--3way", "--reject", "--verbose", patch_file_path]

/-- Modelled from the spec: a strict application (ladder rung 1 of §4.2,
"exact context match required for each hunk") is a plain `git apply` with no
reject-tolerant and no three-way fallback flag. -/
def is_strict_apply_cmd (command : List String) : Prop :=
  "--reject" ∉ command ∧ "--3way" ∉ command

instance (command : List String) : Decidable (is_strict_apply_cmd command) := by
  unfold is_strict_apply_cmd
  infer_instance

/-- Result of one external `git apply` run: the process returncode and the
number of "Applied patch" messages counted in its stdout plus stderr. -/
structure ProcResult where
  returncode : Int
  applied : Nat
deriving DecidableEq

/-- `PatchApplier.apply_patch_from_file`: run the reject-tolerant apply; on a
nonzero returncode succeed anyway if at least one hunk was applied, otherwise
retry with the three-way apply and again accept a partial application. -/
def apply_patch_from_file (r1 r2 : ProcResult) : Bool :=
  if r1.returncode ≠ 0 then
    if 0 < r1.applied then
      true
    else
      if r2.returncode ≠ 0 then
        if 0 < r2.applied then true else false
      else
        r2.returncode == 0
  else
    r1.returncode == 0

/-- C4 counterexample: the first strategy the ladder tries is not strict
application — the very first git invocation already carries the
reject-tolerant `--reject` flag (and there are only two rungs, not three).
Concrete input: any patch path, here "gen.patch". -/
theorem first_apply_cmd_not_strict : ¬ is_strict_apply_cmd (first_apply_cmd "gen.patch") := by
  decide

/-- C4 (amended): provided a zero returncode means the whole patch (at least
one hunk) applied, `apply()` returns success if and only if one of the two
attempts actually made — reject-tolerant application first, then three-way
merge with reject fallback — applies at least one hunk; in particular a patch
whose first attempt applies nothing but whose three-way attempt succeeds is
an overall success, and a partial application (nonzero returncode with some
hunks applied) also counts as success. -/
theorem apply_patch_success_iff (r1 r2 : ProcResult)
    (h1 : r1.returncode = 0 → 0 < r1.applied)
    (h2 : r2.returncode = 0 → 0 < r2.applied) :
    apply_patch_from_file r1 r2 = true ↔ (0 < r1.applied ∨ 0 < r2.applied) := by
  unfold apply_patch_from_file
  by_cases hrc1 : r1.returncode = 0
  · simp [hrc1, h1 hrc1]
  · by_cases ha1 : 0 < r1.applied
    · simp [hrc1, ha1]
    · by_cases hrc2 : r2.returncode = 0
      · simp [hrc1, ha1, hrc2, h2 hrc2]
      · by_cases ha2 : 0 < r2.applied
        · simp [hrc1, ha1, hrc2, ha2]
        · simp [hrc1, ha1, hrc2, ha2]

/-- Witness for C4's amended theorem: first attempt fails outright
(returncode 1, nothing applied), three-way attempt succeeds. -/
theorem apply_patch_success_iff_witness :
    apply_patch_from_file ⟨1, 0⟩ ⟨0, 3⟩ = true :=
  (apply_patch_success_iff ⟨1, 0⟩ ⟨0, 3⟩ (by intro h; cases h) (fun _ => by decide)).mpr
    (Or.inr (by decide))

/-!
Structural similarity (`src/evaluator/utils/ast_utils.py`, `ASTComparator`).
Directories are given as association lists from relative path to file
content (the dict `relpath -> file` the code builds from its glob; paths
within one directory are unique).  Python's `ast.parse` / `ast.unparse` and
`SequenceMatcher(...).ratio()` are external collaborators and appear as
parameters: `parse` returns `none` exactly when the file raises
`SyntaxError` (or any other exception caught by the bare except).
-/

/-- `ASTComparator._compare_files`: parse both contents; any parse failure is
caught and scored 0.0, otherwise unparse both trees and take the sequence
ratio of the two canonical strings. -/
def compare_files {Tree : Type} (parse : String → Option Tree) (unparse : Tree → String)
    (ratio : String → String → ℚ) (content1 content2 : String) : ℚ :=
  match parse content1, parse content2 with
  | some ast1, some ast2 => ratio (unparse ast1) (unparse ast2)
  | _, _ => 0

/-- The relative paths present in both directories, in the first directory's
order (the iteration order over `common_files`). -/
def common_files (dir1 dir2 : List (String × String)) : List String :=
  (dir1.map Prod.fst).filter (fun p => decide (p ∈ dir2.map Prod.fst))

/-- Content of the file at a relative path (the dict lookup; "" as a default
is never used on paths from `common_files`). -/
def lookup_content (dir : List (String × String)) (p : String) : String :=
  ((dir.find? (fun e => e.1 == p)).map Prod.snd).getD ""

/-- `ASTComparator.compare_directory_asts`: the per-common-file similarity
record, one `(path, ratio)` entry per common relative path. -/
def compare_directory_asts {Tree : Type} (parse : String → Option Tree)
    (unparse : Tree → String) (ratio : String → String → ℚ)
    (dir1 dir2 : List (String × String)) : List (String × ℚ) :=
  (common_files dir1 dir2).map fun p =>
    (p, compare_files parse unparse ratio (lookup_content dir1 p) (lookup_content dir2 p))

lemma find_in_tagged_map (f : String → ℚ) (l : List String) (p : String) (hp : p ∈ l) :
    (l.map fun q => (q, f q)).find? (fun e => e.1 == p) = some (p, f p) := by
  induction l with
  | nil => cases hp
  | cons q qs ih =>
    rw [List.map_cons, List.find?]
    by_cases hq : q = p
    · subst hq
      simp
    · have hfalse : ((q, f q).1 == p) = false := by
        simp [hq]
      rw [hfalse]
      exact ih (List.mem_cons.mp hp |>.resolve_left fun h => hq h.symm)

lemma compare_directory_asts_lookup {Tree : Type} (parse : String → Option Tree)
    (unparse : Tree → String) (ratio : String → String → ℚ)
    (dir1 dir2 : List (String × String)) (p : String)
    (hp : p ∈ common_files dir1 dir2) :
    (compare_directory_asts parse unparse ratio dir1 dir2).find? (fun e => e.1 == p) =
      some (p, compare_files parse unparse ratio (lookup_content dir1 p) (lookup_content dir2 p)) := by
  unfold compare_directory_asts
  exact find_in_tagged_map
    (fun q => compare_files parse unparse ratio (lookup_content dir1 q) (lookup_content dir2 q))
    (common_files dir1 dir2) p hp

/-- C7: during directory comparison, a common file either of whose sides
fails to parse gets ratio 0.0 (the comparison is a total function — the
`SyntaxError` is caught, never re-raised), and every other common file's
entry is exactly the ratio computed from its own two contents, unaffected by
the failing file. -/
theorem compare_directory_parse_failure {Tree : Type} (parse : String → Option Tree)
    (unparse : Tree → String) (ratio : String → String → ℚ)
    (dir1 dir2 : List (String × String)) (p : String)
    (hp : p ∈ common_files dir1 dir2)
    (hfail : parse (lookup_content dir1 p) = none ∨ parse (lookup_content dir2 p) = none) :
    (compare_directory_asts parse unparse ratio dir1 dir2).find? (fun e => e.1 == p) =
        some (p, 0) ∧
    (∀ q ∈ common_files dir1 dir2, q ≠ p →
      (compare_directory_asts parse unparse ratio dir1 dir2).find? (fun e => e.1 == q) =
        some (q, compare_files parse unparse ratio (lookup_content dir1 q) (lookup_content dir2 q))) := by
  constructor
  · rw [compare_directory_asts_lookup parse unparse ratio dir1 dir2 p hp]
    have hzero : compare_files parse unparse ratio (lookup_content dir1 p)
        (lookup_content dir2 p) = 0 := by
      unfold compare_files
      rcases hfail with hf | hf
      · rw [hf]
      · rw [hf]
        cases parse (lookup_content dir1 p) <;> rfl
    rw [hzero]
  · intro q hq _
    exact compare_directory_asts_lookup parse unparse ratio dir1 dir2 q hq

/-- Witness for C7: `Tree := Unit`, a parser failing exactly on "bad", and a
two-file directory pair where the failing file scores 0 and the other keeps
its own ratio. -/
theorem compare_directory_parse_failure_witness :
    (compare_directory_asts (fun s => if s = "bad" then none else some ())
        (fun _ => "u") (fun _ _ => 1)
        [("a.py", "bad"), ("b.py", "ok")] [("a.py", "ok"), ("b.py", "ok")]).find?
        (fun e => e.1 == "a.py") = some ("a.py", 0) :=
  (compare_directory_parse_failure (fun s => if s = "bad" then none else some ())
    (fun _ => "u") (fun _ _ => 1)
    [("a.py", "bad"), ("b.py", "ok")] [("a.py", "ok"), ("b.py", "ok")] "a.py"
    (by decide) (Or.inl (by decide))).1

/-!
Migration diff filter (`src/evaluator/utils/mig_diff_filter.py`).  Line
numbers are Python ints, so ranges are modelled as `Int` pairs; Python list
indexing (negative indices wrap, out-of-range raises `IndexError`) is
`py_get` with `none` as the raised error, and Python slicing (always total,
clamped to the list) is `py_slice`.  `sorted(..., key=lambda x: x[0][0])` is
a stable sort, modelled by `py_sorted_by_old_start`.  The `while` loop of
`clever_way_to_replace_old_range_with_new_range` is `replace_loop`; a `none`
result models an uncaught `IndexError` escaping the function.
-/

/-- Python `l[i]` for an int index: negative indices count from the end,
out-of-range indexing raises (`none`). -/
def py_get (l : List String) (i : Int) : Option String :=
  let j := if i < 0 then (l.length : Int) + i else i
  if 0 ≤ j ∧ j < l.length then l.get? j.toNat else none

/-- Python `l[a:b]` for int bounds: clamped to the list, never raises. -/
def py_slice (l : List String) (a b : Int) : List String :=
  let n := (l.length : Int)
  let a2 := if a < 0 then max (n + a) 0 else min a n
  let b2 := if b < 0 then max (n + b) 0 else min b n
  (l.drop a2.toNat).take (b2 - a2).toNat

/-- The loop's inner `should_replace(old_lineno)` closure: false when the
changes are exhausted, otherwise true once the current line has reached the
current change's old-range start. -/
def should_replace (all_changes : List ((Int × Int) × (Int × Int))) (cur_change_idx : Nat)
    (old_lineno : Int) : Bool :=
  match all_changes.get? cur_change_idx with
  | none => false
  | some cur_change => decide (cur_change.1.1 ≤ old_lineno)

/-- The `while old_lineno <= len(old_file)` loop: copy the old line when not
replacing, otherwise skip the old range and append the new file's slice
`new_file[new_start - 1 : new_end]`, advancing to the next change. -/
def replace_loop (all_changes : List ((Int × Int) × (Int × Int)))
    (old_file new_file : List String)
    (cur_change_idx : Nat) (old_lineno : Int) (acc : List String) : Option (List String) :=
  if old_lineno ≤ (old_file.length : Int) then
    if should_replace all_changes cur_change_idx old_lineno then
      match hidx : all_changes.get? cur_change_idx with
      | some cur_change =>
          replace_loop all_changes old_file new_file (cur_change_idx + 1)
            (cur_change.1.2 + 1)
            (acc ++ py_slice new_file (cur_change.2.1 - 1) cur_change.2.2)
      | none => none
    else
      match py_get old_file (old_lineno - 1) with
      | some line =>
          replace_loop all_changes old_file new_file cur_change_idx (old_lineno + 1)
            (acc ++ [line])
      | none => none
  else
    some acc
termination_by (all_changes.length - cur_change_idx, ((old_file.length : Int) + 1 - old_lineno).toNat)
decreasing_by
  · have hlt : cur_change_idx < all_changes.length := by
      have := List.get?_eq_some.mp hidx
      exact this.1
    apply Prod.Lex.left
    omega
  · apply Prod.Lex.right
    omega

lemma py_get_mem {l : List String} {i : Int} {s : String} (h : py_get l i = some s) : s ∈ l := by
  simp only [py_get] at h
  split_ifs at h <;> first | exact List.get?_mem h | cases h

lemma py_get_isSome_of_bounds {l : List String} {i : Int} (h0 : 0 ≤ i) (h1 : i < l.length) :
    (py_get l i).isSome := by
  simp only [py_get]
  rw [if_neg (by omega : ¬ i < 0)]
  rw [if_pos ⟨h0, h1⟩]
  have hn : i.toNat < l.length := by omega
  rw [List.get?_eq_get hn]
  rfl

lemma py_slice_subset (l : List String) (a b : Int) : ∀ s ∈ py_slice l a b, s ∈ l := by
  intro s hs
  simp only [py_slice] at hs
  exact List.mem_of_mem_drop (List.mem_of_mem_take hs)

lemma replace_loop_total (all_changes : List ((Int × Int) × (Int × Int)))
    (old_file new_file : List String)
    (hend : ∀ c ∈ all_changes, 0 ≤ c.1.2) :
    ∀ (cur_change_idx : Nat) (old_lineno : Int) (acc : List String),
      1 ≤ old_lineno →
      ∃ out, replace_loop all_changes old_file new_file cur_change_idx old_lineno acc = some out ∧
        ∀ s ∈ out, s ∈ acc ∨ s ∈ old_file ∨ s ∈ new_file := by
  intro idx0 lineno0 acc0
  induction idx0, lineno0, acc0 using replace_loop.induct all_changes old_file new_file with
  | case1 idx lineno acc hle hrep cur_change hc ih =>
    intro _
    have hnext : 1 ≤ cur_change.1.2 + 1 := by
      have := hend cur_change (List.get?_mem hc)
      omega
    obtain ⟨out, hout, hsub⟩ := ih hnext
    refine ⟨out, ?_, ?_⟩
    · unfold replace_loop
      rw [if_pos hle, if_pos hrep, hc]
      exact hout
    · intro s hs
      rcases hsub s hs with h | h | h
      · rcases List.mem_append.mp h with h2 | h2
        · exact Or.inl h2
        · exact Or.inr (Or.inr (py_slice_subset _ _ _ s h2))
      · exact Or.inr (Or.inl h)
      · exact Or.inr (Or.inr h)
  | case2 idx lineno acc hle hrep hc =>
    intro _
    exfalso
    rw [should_replace, hc] at hrep
    cases hrep
  | case3 idx lineno acc hle hrep line hline ih =>
    intro h1
    obtain ⟨out, hout, hsub⟩ := ih (by omega)
    refine ⟨out, ?_, ?_⟩
    · unfold replace_loop
      rw [if_pos hle, if_neg hrep, hline]
      exact hout
    · intro s hs
      rcases hsub s hs with h | h | h
      · rcases List.mem_append.mp h with h2 | h2
        · exact Or.inl h2
        · rcases List.mem_singleton.mp h2 with rfl
          exact Or.inr (Or.inl (py_get_mem hline))
      · exact Or.inr (Or.inl h)
      · exact Or.inr (Or.inr h)
  | case4 idx lineno acc hle hrep hnone =>
    intro h1
    exfalso
    have hsome : (py_get old_file (lineno - 1)).isSome :=
      py_get_isSome_of_bounds (by omega) (by omega)
    rw [hnone] at hsome
    cases hsome
  | case5 idx lineno acc hle =>
    intro _
    refine ⟨acc, ?_, fun s hs => Or.inl hs⟩
    unfold replace_loop
    rw [if_neg hle]

lemma replace_loop_beyond (all_changes : List ((Int × Int) × (Int × Int)))
    (old_file new_file : List String)
    (hbeyond : ∀ c ∈ all_changes, (old_file.length : Int) < c.1.1) :
    ∀ (cur_change_idx : Nat) (old_lineno : Int) (acc : List String),
      1 ≤ old_lineno →
      replace_loop all_changes old_file new_file cur_change_idx old_lineno acc =
        some (acc ++ old_file.drop (old_lineno - 1).toNat) := by
  intro idx0 lineno0 acc0
  induction idx0, lineno0, acc0 using replace_loop.induct all_changes old_file new_file with
  | case1 idx lineno acc hle hrep cur_change hc ih =>
    intro _
    exfalso
    rw [should_replace, hc] at hrep
    have hgt := hbeyond cur_change (List.get?_mem hc)
    simp only [decide_eq_true_eq] at hrep
    omega
  | case2 idx lineno acc hle hrep hc =>
    intro _
    exfalso
    rw [should_replace, hc] at hrep
    cases hrep
  | case3 idx lineno acc hle hrep line hline ih =>
    intro h1
    rw [replace_loop]
    rw [if_pos hle, if_neg hrep, hline]
    show replace_loop all_changes old_file new_file idx (lineno + 1) (acc ++ [line]) =
      some (acc ++ List.drop (lineno - 1).toNat old_file)
    rw [ih (by omega)]
    have hdrop : old_file.drop (lineno - 1).toNat =
        line :: old_file.drop (lineno + 1 - 1).toNat := by
      have hlt : (lineno - 1).toNat < old_file.length := by omega
      rw [List.drop_eq_get_cons hlt]
      have hget : old_file.get? (lineno - 1).toNat = some line := by
        rw [py_get] at hline
        rw [if_neg (by omega : ¬ lineno - 1 < 0)] at hline
        rw [if_pos ⟨by omega, by omega⟩] at hline
        exact hline
      rw [List.get?_eq_get hlt] at hget
      have hval : old_file.get ⟨(lineno - 1).toNat, hlt⟩ = line := by
        injection hget
      rw [hval]
      have harith : (lineno - 1).toNat + 1 = (lineno + 1 - 1).toNat := by omega
      rw [harith]
    rw [hdrop]
    simp
  | case4 idx lineno acc hle hrep hnone =>
    intro h1
    exfalso
    have hsome : (py_get old_file (lineno - 1)).isSome :=
      py_get_isSome_of_bounds (by omega) (by omega)
    rw [hnone] at hsome
    cases hsome
  | case5 idx lineno acc hle =>
    intro h1
    rw [replace_loop]
    rw [if_neg hle]
    have hnil : old_file.drop (lineno - 1).toNat = [] := by
      apply List.drop_eq_nil_of_le
      omega
    rw [hnil]
    simp

/-- Stable insertion used to model Python's stable `sorted` (an element is
placed after all existing elements whose key is less or equal). -/
def insert_sorted_by_old_start (x : (Int × Int) × (Int × Int))
    (l : List ((Int × Int) × (Int × Int))) : List ((Int × Int) × (Int × Int)) :=
  match l with
  | [] => [x]
  | y :: ys => if y.1.1 ≤ x.1.1 then y :: insert_sorted_by_old_start x ys else x :: y :: ys

/-- `sorted(all_changes, key=lambda x: x[0][0])`: stable sort by old-range
start. -/
def py_sorted_by_old_start (l : List ((Int × Int) × (Int × Int))) :
    List ((Int × Int) × (Int × Int)) :=
  l.foldl (fun acc x => insert_sorted_by_old_start x acc) []

lemma mem_insert_sorted (x a : (Int × Int) × (Int × Int))
    (l : List ((Int × Int) × (Int × Int))) :
    a ∈ insert_sorted_by_old_start x l ↔ a = x ∨ a ∈ l := by
  induction l with
  | nil => simp [insert_sorted_by_old_start]
  | cons y ys ih =>
    rw [insert_sorted_by_old_start]
    split <;> simp only [List.mem_cons, ih] <;> tauto

lemma mem_py_sorted_aux (l : List ((Int × Int) × (Int × Int))) :
    ∀ acc a, (a ∈ l.foldl (fun acc x => insert_sorted_by_old_start x acc) acc ↔
      a ∈ acc ∨ a ∈ l) := by
  induction l with
  | nil => intro acc a; simp
  | cons x xs ih =>
    intro acc a
    rw [List.foldl_cons, ih, mem_insert_sorted]
    simp only [List.mem_cons]
    tauto

lemma mem_py_sorted (l : List ((Int × Int) × (Int × Int))) (a : (Int × Int) × (Int × Int)) :
    a ∈ py_sorted_by_old_start l ↔ a ∈ l := by
  rw [py_sorted_by_old_start, mem_py_sorted_aux]
  simp

/-- `clever_way_to_replace_old_range_with_new_range`: with no changes return
a copy of the old file, otherwise sort the changes by old-range start and run
the replacement walk from line 1. -/
def clever_way_to_replace_old_range_with_new_range
    (all_changes : List ((Int × Int) × (Int × Int)))
    (old_file new_file : List String) : Option (List String) :=
  if all_changes.isEmpty then some old_file
  else replace_loop (py_sorted_by_old_start all_changes) old_file new_file 0 1 []

/-- Python `s.split(sep)` for a one-character separator. -/
def split_on_char (sep : Char) (s : List Char) : List (List Char) :=
  s.foldr
    (fun c acc =>
      if c = sep then [] :: acc
      else
        match acc with
        | [] => [[c]]
        | h :: t => (c :: h) :: t)
    [[]]

/-- Python `int(chunk)` on a chunk containing no "-" (as every chunk produced
by splitting a line spec on "-" is): digits parse to a nonnegative number,
anything else raises `ValueError` (`none`).  Python's `int` also tolerates
surrounding whitespace, underscores, and a leading "+", but those never yield
a negative value either, so the model is faithful on the sign. -/
def parse_python_nat (chunk : List Char) : Option Nat :=
  if chunk ≠ [] ∧ chunk.all Char.isDigit then
    some (chunk.foldl (fun acc c => acc * 10 + (c.toNat - 48)) 0)
  else none

/-- One side of a line spec: `"N"` gives `(N, N)`, `"A-B"` gives `(A, B)`
(the code reads only the first two parts), and a chunk that fails to parse
raises (`none`). -/
def parse_range_part (s : List Char) : Option (Int × Int) :=
  match (split_on_char '-' s).mapM parse_python_nat with
  | some [a] => some ((a : Int), (a : Int))
  | some (a :: b :: _) => some ((a : Int), (b : Int))
  | _ => none

/-- `parse_line_spec`: split on ":" (exactly two parts, otherwise the tuple
unpacking raises) and parse the old and new ranges. -/
def parse_line_spec (line_spec : String) : Option ((Int × Int) × (Int × Int)) :=
  match split_on_char ':' line_spec.toList with
  | [old_range_str, new_range_str] =>
      match parse_range_part old_range_str, parse_range_part new_range_str with
      | some old_range, some new_range => some (old_range, new_range)
      | _, _ => none
  | _ => none

lemma parse_range_part_nonneg {s : List Char} {r : Int × Int}
    (h : parse_range_part s = some r) : 0 ≤ r.1 ∧ 0 ≤ r.2 := by
  unfold parse_range_part at h
  split at h
  · injection h with h2
    subst h2
    exact ⟨Int.natCast_nonneg _, Int.natCast_nonneg _⟩
  · injection h with h2
    subst h2
    exact ⟨Int.natCast_nonneg _, Int.natCast_nonneg _⟩
  · cases h

/-- Every range the line-spec format can declare is nonnegative: the parser
splits on "-" before parsing numbers, so no negative literal survives. -/
lemma parse_line_spec_nonneg {s : String} {r : (Int × Int) × (Int × Int)}
    (h : parse_line_spec s = some r) :
    0 ≤ r.1.1 ∧ 0 ≤ r.1.2 ∧ 0 ≤ r.2.1 ∧ 0 ≤ r.2.2 := by
  unfold parse_line_spec at h
  split at h
  · split at h
    · injection h with h2
      subst h2
      rename_i ho hn
      obtain ⟨h1, h2⟩ := parse_range_part_nonneg ho
      obtain ⟨h3, h4⟩ := parse_range_part_nonneg hn
      exact ⟨h1, h2, h3, h4⟩
    · cases h
  · cases h

lemma mig_example_eval :
    clever_way_to_replace_old_range_with_new_range [((2, 2), (2, 3))]
      ["a", "b", "c", "d", "e"] ["a", "B2", "B3", "d", "e"] =
      some ["a", "B2", "B3", "c", "d", "e"] := by
  repeat first
    | rfl
    | (unfold replace_loop
       simp [should_replace, py_get, py_slice])
    | (unfold clever_way_to_replace_old_range_with_new_range py_sorted_by_old_start
        insert_sorted_by_old_start replace_loop
       simp [should_replace, py_get, py_slice])

/-- C5 counterexample: the diff-filter example of the spec is wrong on the
code.  With old `["a","b","c","d","e"]`, new `["a","B2","B3","d","e"]`, and
line spec "2:2-3" (old range 2..2, new range 2..3), the splicer does NOT
return `["a","B2","B3","d","e"]`: only old line 2 is consumed, so old line 3
("c") survives. -/
theorem mig_diff_filter_example_counterexample :
    ¬ clever_way_to_replace_old_range_with_new_range [((2, 2), (2, 3))]
        ["a", "b", "c", "d", "e"] ["a", "B2", "B3", "d", "e"] =
        some ["a", "B2", "B3", "d", "e"] := by
  rw [mig_example_eval]
  decide

/-- C5 (amended): "2:2-3" parses to old range 2..2 and new range 2..3, and
splicing old `["a","b","c","d","e"]` with new `["a","B2","B3","d","e"]` under
that single change yields exactly `["a","B2","B3","c","d","e"]` — new lines
2..3 replace old line 2 only, and old line 3 ("c") is kept. -/
theorem mig_diff_filter_example :
    parse_line_spec "2:2-3" = some ((2, 2), (2, 3)) ∧
    clever_way_to_replace_old_range_with_new_range [((2, 2), (2, 3))]
        ["a", "b", "c", "d", "e"] ["a", "B2", "B3", "d", "e"] =
      some ["a", "B2", "B3", "c", "d", "e"] :=
  ⟨by decide, mig_example_eval⟩

/-- C10 counterexample: the splicer is NOT total on arbitrary integer range
pairs — with the change `((-5,-3),(1,1))`, old file `["a"]`, and new file
`["x"]`, the walk sets the line counter to -2 and then evaluates
`old_file[-3]` on a one-element list, raising `IndexError` (modelled `none`)
instead of returning a list. -/
theorem clever_way_oob_counterexample :
    clever_way_to_replace_old_range_with_new_range [((-5, -3), (1, 1))] ["a"] ["x"] = none := by
  repeat first
    | rfl
    | (unfold replace_loop
       simp [should_replace, py_get, py_slice])
    | (unfold clever_way_to_replace_old_range_with_new_range py_sorted_by_old_start
        insert_sorted_by_old_start replace_loop
       simp [should_replace, py_get, py_slice])

/-- C10 (amended): for every list of declared range pairs with nonnegative
endpoints — and every pair the line-spec parser can produce is nonnegative,
by `parse_line_spec_nonneg` — the splicer never indexes outside either list:
it returns a list for all old and new files, every output line is a line of
the old or of the new file (a new range reaching past the new file's end is
silently truncated to the lines that exist), and when every declared
old-range start lies beyond the old file's end no range is applied and the
output is the old file unchanged. -/
theorem clever_way_total (all_changes : List ((Int × Int) × (Int × Int)))
    (old_file new_file : List String)
    (hnn : ∀ c ∈ all_changes, 0 ≤ c.1.1 ∧ 0 ≤ c.1.2 ∧ 0 ≤ c.2.1 ∧ 0 ≤ c.2.2) :
    ∃ out, clever_way_to_replace_old_range_with_new_range all_changes old_file new_file =
        some out ∧
      (∀ s ∈ out, s ∈ old_file ∨ s ∈ new_file) ∧
      ((∀ c ∈ all_changes, (old_file.length : Int) < c.1.1) → out = old_file) := by
  unfold clever_way_to_replace_old_range_with_new_range
  by_cases hemp : all_changes.isEmpty
  · rw [if_pos hemp]
    exact ⟨old_file, rfl, fun s hs => Or.inl hs, fun _ => rfl⟩
  · rw [if_neg hemp]
    have hend : ∀ c ∈ py_sorted_by_old_start all_changes, 0 ≤ c.1.2 := by
      intro c hc
      exact (hnn c ((mem_py_sorted all_changes c).mp hc)).2.1
    obtain ⟨out, hout, hsub⟩ :=
      replace_loop_total (py_sorted_by_old_start all_changes) old_file new_file hend 0 1 []
        (by omega)
    refine ⟨out, hout, ?_, ?_⟩
    · intro s hs
      rcases hsub s hs with h | h | h
      · cases h
      · exact Or.inl h
      · exact Or.inr h
    · intro hbeyond
      have hb2 : ∀ c ∈ py_sorted_by_old_start all_changes, (old_file.length : Int) < c.1.1 := by
        intro c hc
        exact hbeyond c ((mem_py_sorted all_changes c).mp hc)
      have hrun := replace_loop_beyond (py_sorted_by_old_start all_changes) old_file new_file
        hb2 0 1 [] (by omega)
      rw [hrun] at hout
      have harith : ((1 : Int) - 1).toNat = 0 := by omega
      rw [harith, List.drop_zero, List.nil_append] at hout
      injection hout with hout2
      exact hout2.symm

/-- Witness for C10's amended theorem on a concrete nonnegative change list. -/
theorem clever_way_total_witness :
    ∃ out, clever_way_to_replace_old_range_with_new_range [((1, 1), (1, 1))] ["a"] ["x"] =
        some out ∧
      (∀ s ∈ out, s ∈ ["a"] ∨ s ∈ ["x"]) ∧
      ((∀ c ∈ ([((1, 1), (1, 1))] : List ((Int × Int) × (Int × Int))),
          ((["a"] : List String).length : Int) < c.1.1) → out = ["a"]) := by
  exact clever_way_total [((1, 1), (1, 1))] ["a"] ["x"] (by decide)
